import Mathlib

/-!
Verification of the feedback-analyzer worker (TypeScript sources under `src/`).

This file gives a shallow embedding of the repository's pure logic:

* `src/ai/normalize.ts` — `normalizeFeedback` / `validateFeedback`
* `src/domain/feedback.ts` — `Feedback`, `FeedbackRow`, `feedbackToRow`, `rowToFeedback`
* `src/storage/r2.ts` — `getFeedbackR2Key`
* `src/ai/search.ts` — `summarizeForDiscord`
* `src/index.ts` — the digest composition inside `handleDigestCommand`, and the
  query-validation logic of `handleAskCommand` / `handleAsk`
* `src/discord/types.ts` — interaction option extraction and response builders

JavaScript runtime values produced by `JSON.parse` are modelled by the inductive
`JsonVal` below.  JavaScript strings are modelled by Lean `String` (one Lean
`Char` per code point; the sources only ever index strings with small constant
offsets into ASCII markers, so the UTF-16 code-unit distinction does not affect
the embedded logic).  Numbers from `JSON.parse` are modelled by `JsNum`, a
number carried by its canonical JavaScript string representation (JavaScript
numbers that originate from JSON are in bijection with their canonical
representations; the sources never do arithmetic on them, only `typeof` checks
and re-serialization, so this representation is exact for the embedded code).
Fallible code (a JavaScript `throw`) is modelled with `Except` / `Option`.
-/

/-! ## JavaScript runtime value model -/

/-- Characters that can occur in a JSON number literal. -/
def isNumLitChar (c : Char) : Bool :=
  c.isDigit || c = '-' || c = '+' || c = '.' || c = 'e' || c = 'E'

/-- Shape of the canonical string representation of a JavaScript number that
originated from `JSON.parse` (no `NaN`/`Infinity` can come out of JSON): a
nonempty run of number-literal characters starting with a digit or a minus
sign. -/
def validNumRepr (s : String) : Bool :=
  !s.data.isEmpty && s.data.all isNumLitChar &&
    (match s.data with
     | c :: _ => c.isDigit || c = '-'
     | [] => false)

/-- A JavaScript number as produced by `JSON.parse`, identified by its canonical
`Number.prototype.toString` representation.  The canonical representation of
`0` (and `-0`) is `"0"`. -/
def JsNum : Type := {s : String // validNumRepr s = true}

instance : DecidableEq JsNum := Subtype.instDecidableEq

/-- A JavaScript value that can result from `JSON.parse`:  `null`, booleans,
numbers, strings, arrays and plain objects.  Objects are association lists;
objects produced by `JSON.parse` have pairwise-distinct keys. -/
inductive JsonVal where
  | null : JsonVal
  | bool (b : Bool) : JsonVal
  | num (n : JsNum) : JsonVal
  | str (s : String) : JsonVal
  | arr (elems : List JsonVal) : JsonVal
  | obj (fields : List (String × JsonVal)) : JsonVal

/-- JavaScript truthiness (`Boolean(v)`) for `JSON.parse`-produced values:
`null`, `false`, `0` and `""` are falsy; every other number/string and every
array or object is truthy. -/
def jsTruthy : JsonVal → Bool
  | .null => false
  | .bool b => b
  | .num n => n.val ≠ "0"
  | .str s => s ≠ ""
  | .arr _ => true
  | .obj _ => true

mutual

/-- JavaScript string conversion `String(v)` for `JSON.parse`-produced values.
Arrays stringify via `Array.prototype.join(",")` (where a `null` element
contributes the empty string), plain objects via `Object.prototype.toString`. -/
def jsToString : JsonVal → String
  | .null => "null"
  | .bool b => if b then "true" else "false"
  | .num n => n.val
  | .str s => s
  | .arr elems => jsArrayJoin elems
  | .obj _ => "[object Object]"

/-- `Array.prototype.join(",")` on `JSON.parse`-produced element values. -/
def jsArrayJoin : List JsonVal → String
  | [] => ""
  | [JsonVal.null] => ""
  | [v] => jsToString v
  | JsonVal.null :: rest => "," ++ jsArrayJoin rest
  | v :: rest => jsToString v ++ "," ++ jsArrayJoin rest

end

/-- JavaScript property access `v[key]` (for a non-`null` base), returning
`none` for JavaScript `undefined`.  On objects this is key lookup.  On the
other value forms it returns `undefined` for every key the embedded sources
ever read (`"id"`, `"source"`, `"tags"`, … — none of which is an array index,
`"length"`, or another built-in member), so those forms are mapped to `none`
uniformly. -/
def getField (v : JsonVal) (key : String) : Option JsonVal :=
  match v with
  | .obj fields => fields.lookup key
  | _ => none

/-- The JavaScript short-circuit `a || b` specialized to a possibly-`undefined`
left operand (`a` being a property access): the left value if it is present and
truthy, the right value otherwise. -/
def jsOr (v : Option JsonVal) (dflt : JsonVal) : JsonVal :=
  match v with
  | some x => if jsTruthy x then x else dflt
  | none => dflt

/-- Truthiness of a `string | undefined` JavaScript value (`!query` tests):
falsy exactly when the value is `undefined` or the empty string. -/
def jsTruthyStr : Option String → Bool
  | none => false
  | some s => s ≠ ""

/-! ## JavaScript string helpers

The sources use `trim`, `startsWith`, `endsWith`, `slice` and
`substring`; they are modelled here on the underlying character lists. -/

/-- Whitespace as recognized by `String.prototype.trim` (ECMAScript WhiteSpace
and LineTerminator code points). -/
def jsIsWhitespace (c : Char) : Bool :=
  c = ' ' || c = '\t' || c = '\n' || c = '\r' ||
  c = '\x0b' || c = '\x0c' || c = ' ' || c = ' ' ||
  (' ' ≤ c && c ≤ ' ') ||
  c = ' ' || c = ' ' || c = ' ' || c = ' ' ||
  c = '　' || c = '﻿'

/-- Remove leading and trailing JavaScript whitespace from a character list. -/
def trimChars (cs : List Char) : List Char :=
  ((cs.dropWhile jsIsWhitespace).reverse.dropWhile jsIsWhitespace).reverse

/-- Model of `String.prototype.trim`. -/
def jsTrim (s : String) : String := ⟨trimChars s.data⟩

/-- Model of `String.prototype.startsWith`. -/
def jsStartsWith (s pre : String) : Bool := pre.data.isPrefixOf s.data

/-- Model of `String.prototype.endsWith`. -/
def jsEndsWith (s suf : String) : Bool := suf.data.isSuffixOf s.data

/-- Model of `String.prototype.slice(n)` for a nonnegative index. -/
def jsDropChars (s : String) (n : Nat) : String := ⟨s.data.drop n⟩

/-- Model of `String.prototype.substring(0, n)` (and of `slice(0, -k)` when `n`
is the length minus `k`). -/
def jsTakeChars (s : String) (n : Nat) : String := ⟨s.data.take n⟩

/-! ## Canonical feedback schema (`src/domain/feedback.ts`)

TypeScript's union types `FeedbackSource`, `ProductArea`, `Sentiment` and
`Urgency` are compile-time-only; at runtime the fields are plain strings, so
the embedding uses `String` fields and states set membership as theorems. -/

/-- Legal values of `FeedbackSource`. -/
def validSources : List String := ["discord", "github", "support", "twitter", "email"]

/-- Legal values of `ProductArea`. -/
def validProductAreas : List String :=
  ["auth", "billing", "workers", "ai", "workers-ai", "d1", "r2", "other"]

/-- Legal values of `Sentiment`. -/
def validSentiments : List String := ["positive", "neutral", "negative"]

/-- Legal values of `Urgency`. -/
def validUrgencies : List String := ["low", "medium", "high", "p1"]

/-- The `confidence` sub-object of a Feedback record (`FeedbackConfidence`):
up to three optional numeric scores. -/
structure FeedbackConfidence where
  product_area : Option JsNum
  sentiment : Option JsNum
  urgency : Option JsNum
deriving DecidableEq

/-- The canonical `Feedback` record.  Optional TypeScript fields
(`field?: T`, i.e. possibly `undefined`) are `Option`s. -/
structure Feedback where
  id : String
  created_at : String
  source : String
  source_url : Option String
  product_area : String
  title : Option String
  author : Option String
  thread_id : Option String
  body_text : String
  sentiment : String
  urgency : String
  tags : List String
  confidence : Option FeedbackConfidence
deriving DecidableEq

/-! ## Validator (`validateFeedback`, `src/ai/normalize.ts` lines 223–280)

The source function takes the value produced by `JSON.parse` and the two
impure defaults it draws on demand (`crypto.randomUUID()` and
`new Date().toISOString()`) are passed here as explicit arguments `freshId`
and `nowIso`.  Property access on the JavaScript `null` value throws a
`TypeError`, so the function is `Except`-valued; every other input produces a
record. -/

/-- Coerce one enum-valued candidate field exactly as the source does
(`valid.includes(v) ? v : dflt`, where `includes` uses strict equality, so
only a string member of the closed set passes). -/
def enumOr (v : Option JsonVal) (valid : List String) (dflt : String) : String :=
  match v with
  | some (.str s) => if s ∈ valid then s else dflt
  | _ => dflt

/-- Extract one numeric confidence sub-score (`typeof x === 'number' ? x :
undefined`). -/
def confField (v : JsonVal) (key : String) : Option JsNum :=
  match getField v key with
  | some (.num n) => some n
  | _ => none

/-- Embedding of `validateFeedback` (`src/ai/normalize.ts`). -/
def validateFeedback (freshId nowIso : String) (data : JsonVal) : Except String Feedback :=
  match data with
  | .null => .error "TypeError: Cannot read properties of null"
  | _ =>
    let id := jsToString (jsOr (getField data "id") (.str freshId))
    let created_at := jsToString (jsOr (getField data "created_at") (.str nowIso))
    let source := enumOr (getField data "source") validSources "email"
    let product_area := enumOr (getField data "product_area") validProductAreas "other"
    let sentiment := enumOr (getField data "sentiment") validSentiments "neutral"
    let urgency := enumOr (getField data "urgency") validUrgencies "medium"
    let tags : List String :=
      match getField data "tags" with
      | some (.arr elems) =>
        elems.filterMap (fun v => match v with | .str s => some s | _ => none)
      | _ => []
    let body_text := jsToString (jsOr (getField data "body_text")
      (jsOr (getField data "content")
        (jsOr (getField data "body")
          (jsOr (getField data "text") (.str "")))))
    let confidence : Option FeedbackConfidence :=
      match getField data "confidence" with
      | some (.obj fields) =>
        some ⟨confField (.obj fields) "product_area",
              confField (.obj fields) "sentiment",
              confField (.obj fields) "urgency"⟩
      | some (.arr elems) =>
        -- an array satisfies `typeof x === 'object' && x !== null`; its
        -- `product_area`/`sentiment`/`urgency` accesses are all `undefined`
        some ⟨confField (.arr elems) "product_area",
              confField (.arr elems) "sentiment",
              confField (.arr elems) "urgency"⟩
      | _ => none
    .ok
      { id := id
        created_at := created_at
        source := source
        source_url := match getField data "source_url" with
          | some (.str s) => some s
          | _ => none
        product_area := product_area
        title := match getField data "title" with
          | some (.str s) => some s
          | _ => none
        author := match getField data "author" with
          | some (.str s) => some s
          | _ => none
        thread_id := match getField data "thread_id" with
          | some (.str s) => some s
          | _ => none
        body_text := body_text
        sentiment := sentiment
        urgency := urgency
        tags := tags
        confidence := confidence }

/-! ## Canonicalization engine (`normalizeFeedback`, `src/ai/normalize.ts`
lines 179–218)

The generation call itself is external; the embedding starts from the
generated `responseText`.  `JSON.parse` is a platform primitive and is passed
as an explicit parameter `parseJson` returning `none` where `JSON.parse`
throws a `SyntaxError`. -/

/-- Embedding of the fence-stripping step of `normalizeFeedback`
(`src/ai/normalize.ts` lines 203–212). -/
def stripCodeFences (responseText : String) : String :=
  let s0 := jsTrim responseText
  let s1 :=
    if jsStartsWith s0 "```json" then jsDropChars s0 7
    else if jsStartsWith s0 "```" then jsDropChars s0 3
    else s0
  let s2 := if jsEndsWith s1 "```" then jsTakeChars s1 (s1.data.length - 3) else s1
  jsTrim s2

/-- Embedding of `normalizeFeedback` from the extracted generation text
onward: strip optional code fences, parse, validate. -/
def normalizeFeedback (parseJson : String → Option JsonVal) (freshId nowIso : String)
    (responseText : String) : Except String Feedback :=
  let jsonStr := stripCodeFences responseText
  match parseJson jsonStr with
  | none => .error "SyntaxError: Unexpected token in JSON"
  | some parsed => validateFeedback freshId nowIso parsed

/-! ## JSON serialization of the row columns (`src/domain/feedback.ts`)

`feedbackToRow` serializes `tags` (an array of strings) and `confidence` (an
object of up to three numbers) with `JSON.stringify`; `rowToFeedback` reads
them back with `JSON.parse`.  The encoders below reproduce `JSON.stringify`'s
exact output on those two shapes (no whitespace, insertion-order keys,
`undefined` members omitted, string escaping per `QuoteJSONString`), and the
decoders reproduce `JSON.parse`'s behavior on the texts those columns can
hold; a text outside the column's shape makes the decoder return `none`,
modelling the `SyntaxError`/shape mismatch cases. -/

/-- Hexadecimal digit character (lowercase, as emitted by `JSON.stringify`
unicode escapes); meaningful for `n < 16`. -/
def hexDigitChar (n : Nat) : Char :=
  if n < 10 then Char.ofNat (48 + n) else Char.ofNat (87 + n)

/-- Escape sequence `JSON.stringify` emits for one character of a string:
quote and backslash get a backslash escape, the control characters with
shorthand escapes use them, the remaining control characters become
`\u00xx`, and every other character is emitted verbatim. -/
def escapeJsonChar (c : Char) : List Char :=
  if c = '"' then ['\\', '"']
  else if c = '\\' then ['\\', '\\']
  else if c = '\u0008' then ['\\', 'b']
  else if c = '\t' then ['\\', 't']
  else if c = '\n' then ['\\', 'n']
  else if c = '\u000C' then ['\\', 'f']
  else if c = '\r' then ['\\', 'r']
  else if c.toNat < 32 then
    ['\\', 'u', '0', '0', hexDigitChar (c.toNat / 16), hexDigitChar (c.toNat % 16)]
  else [c]

/-- Characters of `JSON.stringify` applied to one string (including the
surrounding quotes). -/
def encodeJsonStringChars (s : String) : List Char :=
  '"' :: (s.data.map escapeJsonChar).flatten ++ ['"']

/-- Characters of the comma-separated element list of `JSON.stringify`
applied to an array of strings. -/
def encodeStringArrayBody : List String → List Char
  | [] => []
  | [t] => encodeJsonStringChars t
  | t :: ts => encodeJsonStringChars t ++ ',' :: encodeStringArrayBody ts

/-- Model of `JSON.stringify` on an array of strings (the `tags` column). -/
def encodeStringArray (ts : List String) : String :=
  ⟨'[' :: encodeStringArrayBody ts ++ [']']⟩

/-- The key-value pairs `JSON.stringify` serializes for a confidence object:
the defined members, in insertion order (`product_area`, `sentiment`,
`urgency`); `undefined` members are omitted. -/
def confFieldList (c : FeedbackConfidence) : List (String × JsNum) :=
  (match c.product_area with | some n => [("product_area", n)] | none => []) ++
  (match c.sentiment with | some n => [("sentiment", n)] | none => []) ++
  (match c.urgency with | some n => [("urgency", n)] | none => [])

/-- Characters of one serialized `"key":value` pair (keys here never need
escaping). -/
def encodeConfPair (p : String × JsNum) : List Char :=
  '"' :: p.1.data ++ '"' :: ':' :: p.2.val.data

/-- Characters of the comma-separated pair list of a serialized object. -/
def encodeConfBody : List (String × JsNum) → List Char
  | [] => []
  | [p] => encodeConfPair p
  | p :: ps => encodeConfPair p ++ ',' :: encodeConfBody ps

/-- Model of `JSON.stringify` on a confidence object (the `confidence`
column). -/
def encodeConfidence (c : FeedbackConfidence) : String :=
  ⟨'{' :: encodeConfBody (confFieldList c) ++ ['}']⟩

/-- Numeric value of a hexadecimal digit character, as read by `JSON.parse`'s
`\uXXXX` escape handling. -/
def parseHexDigit (c : Char) : Option Nat :=
  if '0' ≤ c ∧ c ≤ '9' then some (c.toNat - 48)
  else if 'a' ≤ c ∧ c ≤ 'f' then some (c.toNat - 87)
  else if 'A' ≤ c ∧ c ≤ 'F' then some (c.toNat - 55)
  else none

/-- Prepend a decoded character to the result of parsing the rest of a string
body. -/
def consParsed (c : Char) : Option (List Char × List Char) → Option (List Char × List Char)
  | some (cs, rest) => some (c :: cs, rest)
  | none => none

/-- Decode a `\uXXXX` escape's four hexadecimal digits into the encoded
character, returning the remaining input. -/
def parseHex4 : List Char → Option (Char × List Char)
  | h1 :: h2 :: h3 :: h4 :: rest =>
    (match parseHexDigit h1, parseHexDigit h2, parseHexDigit h3, parseHexDigit h4 with
     | some a, some b, some c, some d =>
       some (Char.ofNat (((a * 16 + b) * 16 + c) * 16 + d), rest)
     | _, _, _, _ => none)
  | _ => none

theorem parseHex4_length (cs : List Char) (ch : Char) (rest : List Char)
    (h : parseHex4 cs = some (ch, rest)) : rest.length + 4 = cs.length := by
  match cs, h with
  | h1 :: h2 :: h3 :: h4 :: r, h =>
    simp only [parseHex4] at h
    split at h
    · simp only [Option.some.injEq, Prod.mk.injEq] at h
      obtain ⟨-, hr⟩ := h
      subst hr
      simp
    · exact Option.noConfusion h
  | [], h =>
    have : parseHex4 ([] : List Char) = none := rfl
    rw [this] at h
    exact Option.noConfusion h
  | [h1], h =>
    have : parseHex4 [h1] = none := rfl
    rw [this] at h
    exact Option.noConfusion h
  | [h1, h2], h =>
    have : parseHex4 [h1, h2] = none := rfl
    rw [this] at h
    exact Option.noConfusion h
  | [h1, h2, h3], h =>
    have : parseHex4 [h1, h2, h3] = none := rfl
    rw [this] at h
    exact Option.noConfusion h

/-- Decode one escape sequence (the characters after a backslash), returning
the decoded character and the remaining input. -/
def parseEscapeSeq : List Char → Option (Char × List Char)
  | [] => none
  | e :: rest2 =>
    if e = '"' then some ('"', rest2)
    else if e = '\\' then some ('\\', rest2)
    else if e = '/' then some ('/', rest2)
    else if e = 'b' then some ('\u0008', rest2)
    else if e = 'f' then some ('\u000C', rest2)
    else if e = 'n' then some ('\n', rest2)
    else if e = 'r' then some ('\r', rest2)
    else if e = 't' then some ('\t', rest2)
    else if e = 'u' then parseHex4 rest2
    else none

theorem parseEscapeSeq_length (cs : List Char) (ch : Char) (rest : List Char)
    (h : parseEscapeSeq cs = some (ch, rest)) : rest.length < cs.length := by
  match cs, h with
  | e :: rest2, h =>
    simp only [parseEscapeSeq] at h
    split_ifs at h with h1 h2 h3 h4 h5 h6 h7 h8 h9
    any_goals
      (simp only [Option.some.injEq, Prod.mk.injEq] at h
       obtain ⟨-, hr⟩ := h
       subst hr
       simp)
    have := parseHex4_length rest2 ch rest h
    simp only [List.length_cons]
    omega
  | [], h => exact Option.noConfusion h

/-- Model of `JSON.parse`'s string-body scanner: consumes characters after an
opening quote up to and including the closing quote, decoding escapes, and
returns the decoded characters together with the unconsumed input. -/
def parseJsonStringBody : List Char → Option (List Char × List Char)
  | [] => none
  | c :: rest =>
    if c = '"' then some ([], rest)
    else if c = '\\' then
      match hh : parseEscapeSeq rest with
      | some chrest => consParsed chrest.1 (parseJsonStringBody chrest.2)
      | none => none
    else consParsed c (parseJsonStringBody rest)
termination_by cs => cs.length
decreasing_by
  · have hlen := parseEscapeSeq_length _ chrest.1 chrest.2 hh
    simp only [List.length_cons]
    omega
  · simp

/-- Evaluation of the scanner at an opening-quote head. -/
theorem parseJsonStringBody_quote (rest : List Char) :
    parseJsonStringBody ('"' :: rest) = some ([], rest) := by
  simp [parseJsonStringBody]

/-- Evaluation of the scanner at a backslash head with a decodable escape. -/
theorem parseJsonStringBody_backslash (rest : List Char) (ch : Char) (rest2 : List Char)
    (h : parseEscapeSeq rest = some (ch, rest2)) :
    parseJsonStringBody ('\\' :: rest) = consParsed ch (parseJsonStringBody rest2) := by
  rw [parseJsonStringBody.eq_def]
  simp only [Char.reduceEq, reduceIte]
  split
  next chrest heq =>
    rw [h] at heq
    cases heq
    rfl
  next heq =>
    rw [h] at heq
    exact Option.noConfusion heq

/-- Evaluation of the scanner at an unescaped ordinary character. -/
theorem parseJsonStringBody_other (c : Char) (rest : List Char)
    (h1 : ¬ c = '"') (h2 : ¬ c = '\\') :
    parseJsonStringBody (c :: rest) = consParsed c (parseJsonStringBody rest) := by
  rw [parseJsonStringBody.eq_def]
  simp only [if_neg h1, if_neg h2]

/-- Model of `JSON.parse`'s element loop for an array of strings, positioned
at the start of an element; `fuel` bounds the number of elements (callers pass
the input length, which always suffices).  Succeeds only when the whole
remaining input is consumed by the array. -/
def parseStringArrayElems : Nat → List Char → Option (List String)
  | 0, _ => none
  | fuel + 1, '"' :: rest =>
    (match parseJsonStringBody rest with
     | some (cs, ',' :: rest2) =>
       (match parseStringArrayElems fuel rest2 with
        | some ts => some (String.mk cs :: ts)
        | none => none)
     | some (cs, [']']) => some [String.mk cs]
     | _ => none)
  | _ + 1, _ => none

/-- Model of `JSON.parse` on the `tags_json` column: the column always holds a
serialized array of strings, and any other text makes the decoder fail
(`JSON.parse` would throw or produce a value outside the column's shape). -/
def parseStringArray (s : String) : Option (List String) :=
  match s.data with
  | '[' :: ']' :: [] => some []
  | '[' :: rest => parseStringArrayElems (rest.length + 1) rest
  | _ => none

/-- Model of `JSON.parse`'s member loop for a confidence object, positioned at
the start of a `"key":number` pair.  Keys are scanned up to the closing quote
(the keys of this column never contain escapes) and values are maximal runs of
number-literal characters. -/
def parseConfPairs : Nat → List Char → Option (List (String × JsNum))
  | 0, _ => none
  | fuel + 1, '"' :: rest =>
    let key := rest.takeWhile (· ≠ '"')
    (match rest.dropWhile (· ≠ '"') with
     | '"' :: ':' :: rest2 =>
       let numChars := rest2.takeWhile isNumLitChar
       (if h : validNumRepr (String.mk numChars) = true then
         (match rest2.dropWhile isNumLitChar with
          | ',' :: rest3 =>
            (match parseConfPairs fuel rest3 with
             | some ps => some ((String.mk key, ⟨String.mk numChars, h⟩) :: ps)
             | none => none)
          | '}' :: [] => some [(String.mk key, ⟨String.mk numChars, h⟩)]
          | _ => none)
        else none)
     | _ => none)
  | _ + 1, _ => none

/-- Model of `JSON.parse` on the `confidence_json` column, producing the
parsed object's members.  The column always holds an object of numeric scores;
any other text makes the decoder fail. -/
def parseConfObject (s : String) : Option (List (String × JsNum)) :=
  match s.data with
  | '{' :: '}' :: [] => some []
  | '{' :: rest => parseConfPairs (rest.length + 1) rest
  | _ => none

/-- Rebuild the `confidence` value `rowToFeedback` assigns from the parsed
object's members. -/
def confOfPairs (ps : List (String × JsNum)) : FeedbackConfidence :=
  ⟨ps.lookup "product_area", ps.lookup "sentiment", ps.lookup "urgency"⟩

/-! ## Row conversion (`feedbackToRow` / `rowToFeedback`,
`src/domain/feedback.ts` lines 57–96) -/

/-- The shape of a row of the D1 `feedback` table (`FeedbackRow`):  nullable
columns are `Option`s, JSON columns are serialized strings. -/
structure FeedbackRow where
  id : String
  created_at : String
  source : String
  source_url : Option String
  product_area : String
  title : Option String
  author : Option String
  thread_id : Option String
  body_text : String
  sentiment : String
  urgency : String
  tags_json : Option String
  confidence_json : Option String
  r2_key : String
deriving DecidableEq

/-- Embedding of `feedbackToRow` (`src/domain/feedback.ts` lines 57–74). -/
def feedbackToRow (feedback : Feedback) (r2Key : String) : FeedbackRow :=
  { id := feedback.id
    created_at := feedback.created_at
    source := feedback.source
    source_url := feedback.source_url
    product_area := feedback.product_area
    title := feedback.title
    author := feedback.author
    thread_id := feedback.thread_id
    body_text := feedback.body_text
    sentiment := feedback.sentiment
    urgency := feedback.urgency
    tags_json :=
      if feedback.tags.length > 0 then some (encodeStringArray feedback.tags) else none
    confidence_json :=
      -- `feedback.confidence ? JSON.stringify(feedback.confidence) : null`;
      -- any object (even with no defined member) is truthy
      match feedback.confidence with
      | some c => some (encodeConfidence c)
      | none => none
    r2_key := r2Key }

/-- Embedding of `rowToFeedback` (`src/domain/feedback.ts` lines 79–96).  The
result pairs the reconstructed `Feedback` with the row's `r2_key` (the source
returns `Feedback & \x7b r2_key: string \x7d`).  The TypeScript `as` casts on the
enum columns are runtime no-ops and the embedding copies the strings
unchanged; a `JSON.parse` failure on a column (impossible for rows produced by
`feedbackToRow`) surfaces as `none`. -/
def rowToFeedback (row : FeedbackRow) : Option (Feedback × String) :=
  let tagsParsed : Option (List String) :=
    match row.tags_json with
    | none => some []
    | some s => if s = "" then some [] else parseStringArray s
  let confParsed : Option (Option FeedbackConfidence) :=
    match row.confidence_json with
    | none => some none
    | some s =>
      if s = "" then some none
      else match parseConfObject s with
        | some ps => some (some (confOfPairs ps))
        | none => none
  match tagsParsed, confParsed with
  | some tags, some confidence =>
    some
      ({ id := row.id
         created_at := row.created_at
         source := row.source
         source_url := row.source_url
         product_area := row.product_area
         title := row.title
         author := row.author
         thread_id := row.thread_id
         body_text := row.body_text
         sentiment := row.sentiment
         urgency := row.urgency
         tags := tags
         confidence := confidence }, row.r2_key)
  | _, _ => none

/-! ## Object-store key (`getFeedbackR2Key`, `src/storage/r2.ts` lines 14–18) -/

/-- Embedding of `getFeedbackR2Key`:  `created_at.split('T')[0]` is the prefix
of `created_at` before the first `'T'` (or all of it when no `'T'` occurs). -/
def getFeedbackR2Key (feedback : Feedback) : String :=
  let date : String := ⟨feedback.created_at.data.takeWhile (· ≠ 'T')⟩
  "feedback/dt=" ++ date ++ "/source=" ++ feedback.source ++ "/" ++ feedback.id ++ ".json"

/-! ## Search results and Discord rendering (`src/ai/search.ts`) -/

/-- One citation of a `SearchResult` (`\x7b text, source_url? \x7d`). -/
structure Citation where
  text : String
  source_url : Option String
deriving DecidableEq

/-- A semantic-search result (`SearchResult`).  The `raw` debug payload is
carried opaquely. -/
structure SearchResult where
  answer : String
  citations : List Citation
  raw : Option JsonVal

/-- The numbered citation lines `summarizeForDiscord` appends: for each of the
first three citations with nonempty text, a line
`"\n<i+1>. <text truncated to 100 chars>..."`; `i` is the running index of the
`forEach` loop. -/
def citationLines (i : Nat) : List Citation → String
  | [] => ""
  | c :: rest =>
    (if c.text ≠ "" then
      "\n" ++ toString (i + 1) ++ ". " ++ jsTakeChars c.text 100 ++ "..."
     else "") ++ citationLines (i + 1) rest

/-- The content `summarizeForDiscord` builds before the final platform
truncation: the answer, then a `Sources` section when citations exist. -/
def buildAskContent (searchResult : SearchResult) : String :=
  let content := searchResult.answer
  if searchResult.citations.length > 0 then
    content ++ "\n\n**Sources:**" ++ citationLines 0 (searchResult.citations.take 3)
  else content

/-- The platform-ceiling truncation both renderers end with: content longer
than 1900 characters is cut to 1897 and given a `"..."` marker. -/
def discordTruncate (content : String) : String :=
  if content.data.length > 1900 then jsTakeChars content 1897 ++ "..." else content

/-- Embedding of `summarizeForDiscord` (`src/ai/search.ts` lines 103–128).
The source's `ai`, `model` and `context` parameters are unused by its body and
are omitted. -/
def summarizeForDiscord (searchResult : SearchResult) : String :=
  discordTruncate (buildAskContent searchResult)

/-! ## Digest composition (`handleDigestCommand`, `src/index.ts` lines
418–493)

The composition of the digest message from the already-fetched inputs (the
semantic search result, the daily stats rows, the total count and the
high-urgency sample) is pure; it is embedded as `composeDigest`. -/

/-- One row of `getDailyStats` output. -/
structure DailyStat where
  source : String
  product_area : String
  sentiment : String
  count : Nat
deriving DecidableEq

/-- One row of `getHighUrgencySample` output. -/
structure HighUrgencyItem where
  body_text : String
  source_url : Option String
deriving DecidableEq

/-- The per-source accumulator of the breakdown table
(`\x7b pos, neu, neg \x7d`). -/
structure SentimentCounts where
  pos : Nat
  neu : Nat
  neg : Nat
deriving DecidableEq

/-- Add one stats row into a per-source accumulator: `positive` rows bump
`pos`, `negative` rows bump `neg`, everything else bumps `neu`. -/
def bumpCounts (c : SentimentCounts) (stat : DailyStat) : SentimentCounts :=
  if stat.sentiment = "positive" then { c with pos := c.pos + stat.count }
  else if stat.sentiment = "negative" then { c with neg := c.neg + stat.count }
  else { c with neu := c.neu + stat.count }

/-- Fold of the stats rows into the `grouped` record, keyed by source in
first-insertion order (the enumeration order of a JavaScript object whose
keys are the non-numeric source names). -/
def accumulateStats (stats : List DailyStat) : List (String × SentimentCounts) :=
  stats.foldl
    (fun acc stat =>
      if acc.any (fun p => p.1 = stat.source) then
        acc.map (fun p => if p.1 = stat.source then (p.1, bumpCounts p.2 stat) else p)
      else acc ++ [(stat.source, bumpCounts ⟨0, 0, 0⟩ stat)])
    []

/-- The rendered breakdown lines, one `• source: 👍p 😐n 👎g` line per
source. -/
def breakdownLines (groups : List (String × SentimentCounts)) : String :=
  groups.foldl
    (fun s p =>
      s ++ "• " ++ p.1 ++ ": 👍" ++ toString p.2.pos ++ " 😐" ++ toString p.2.neu ++
        " 👎" ++ toString p.2.neg ++ "\n")
    ""

/-- The bulleted high-urgency excerpt lines. -/
def highUrgencyLines (items : List HighUrgencyItem) : String :=
  items.foldl
    (fun s item => s ++ "• \"" ++ jsTakeChars item.body_text 100 ++ "...\"\n")
    ""

/-- The digest header line. -/
def digestHeader (date : String) : String :=
  "**📊 Feedback Digest for " ++ date ++ "**\n\n"

/-- The digest message before the final platform truncation. -/
def composeDigestBody (date : String) (stats : List DailyStat) (totalCount : Nat)
    (highUrgency : List HighUrgencyItem) (answer : String) : String :=
  let base := digestHeader date
  if totalCount > 0 then
    base ++ "**Total feedback:** " ++ toString totalCount ++ "\n\n" ++
      (if stats.length > 0 then
        "**Breakdown by source & sentiment:**\n" ++
          breakdownLines (accumulateStats stats) ++ "\n"
       else "") ++
      "**Key Themes:**\n" ++ jsTakeChars answer 800 ++
      (if highUrgency.length > 0 then
        "\n\n**🔴 High-Urgency Items:**\n" ++ highUrgencyLines highUrgency
       else "")
  else base ++ "No feedback recorded for this date."

/-- The digest message `handleDigestCommand` sends to the completion edit. -/
def composeDigest (date : String) (stats : List DailyStat) (totalCount : Nat)
    (highUrgency : List HighUrgencyItem) (answer : String) : String :=
  discordTruncate (composeDigestBody date stats totalCount highUrgency answer)

/-! ## Discord interactions (`src/discord/types.ts`, `src/index.ts`) -/

/-- One option of a command invocation (`InteractionDataOption`; the nested
sub-command `options` list is never read by the embedded handlers and is
omitted). -/
structure InteractionDataOption where
  name : String
  type : Nat
  value : Option JsonVal
deriving Inhabited

/-- Command-invocation data (`InteractionData`). -/
structure InteractionData where
  id : String
  name : String
  type : Option Nat
  options : Option (List InteractionDataOption)

/-- A Discord interaction request (`DiscordInteraction`; the `member`/`user`
identity blocks are never read by the embedded handlers and are omitted). -/
structure DiscordInteraction where
  id : String
  type : Nat
  application_id : String
  data : Option InteractionData
  guild_id : Option String
  channel_id : Option String
  token : String
  version : Nat

/-- Payload data of an interaction response. -/
structure ResponseData where
  content : Option String
  flags : Option Nat
deriving DecidableEq

/-- An interaction response (`InteractionResponse`; the `embeds` member is
never produced by the embedded handlers and is omitted). -/
structure InteractionResponse where
  type : Nat
  data : Option ResponseData
deriving DecidableEq

/-- Embedding of `createMessageResponse`. -/
def createMessageResponse (content : String) : InteractionResponse :=
  ⟨4, some ⟨some content, none⟩⟩

/-- Embedding of `createEphemeralResponse` (flag 64 is `EPHEMERAL`). -/
def createEphemeralResponse (content : String) : InteractionResponse :=
  ⟨4, some ⟨some content, some 64⟩⟩

/-- Embedding of `createDeferredResponse`
(`DEFERRED_CHANNEL_MESSAGE_WITH_SOURCE`). -/
def createDeferredResponse : InteractionResponse :=
  ⟨5, none⟩

/-- Embedding of `getStringOption`: find the option with the given name and
return `String(option.value)` when a value is present. -/
def getStringOption (interaction : DiscordInteraction) (name : String) : Option String :=
  match interaction.data with
  | none => none
  | some d =>
    match d.options with
    | none => none
    | some opts =>
      match opts.find? (fun o => o.name = name) with
      | none => none
      | some o =>
        match o.value with
        | none => none
        | some v => some (jsToString v)

/-- Embedding of `handleAskCommand` (`src/index.ts` lines 385–412).  The
second component counts the background continuations the handler registers
with `ctx.waitUntil` before returning. -/
def handleAskCommand (interaction : DiscordInteraction) : InteractionResponse × Nat :=
  let query := getStringOption interaction "query"
  if jsTruthyStr query = false then
    (createEphemeralResponse "Please provide a query using the `query` option.", 0)
  else
    (createDeferredResponse, 1)

/-- Outcome of the synchronous query validation of `handleAsk`
(`src/index.ts` lines 531–537): either the 400 response or continuation with
the validated query. -/
inductive AskOutcome where
  | badRequest (status : Nat) (error : String) : AskOutcome
  | proceed (query : String) : AskOutcome
deriving DecidableEq

/-- Embedding of the query validation of `handleAsk`: the body's `query`
member (`undefined` when absent) is rejected with HTTP 400 when falsy. -/
def handleAskValidation (query : Option String) : AskOutcome :=
  if jsTruthyStr query = false then
    .badRequest 400 "Missing required field: query"
  else
    .proceed (query.getD "")

/-! ## Helper lemmas -/

theorem string_mk_data (s : String) : String.mk s.data = s := rfl

theorem takeWhile_append_stop {p : Char → Bool} (l1 : List Char) (a : Char) (l2 : List Char)
    (h : ∀ c ∈ l1, p c = true) (ha : p a = false) :
    (l1 ++ a :: l2).takeWhile p = l1 := by
  induction l1 with
  | nil => simp [List.takeWhile_cons, ha]
  | cons x xs ih =>
    have hx : p x = true := h x (by simp)
    simp only [List.cons_append, List.takeWhile_cons, hx, if_true]
    rw [ih (fun c hc => h c (by simp [hc]))]

theorem dropWhile_append_stop {p : Char → Bool} (l1 : List Char) (a : Char) (l2 : List Char)
    (h : ∀ c ∈ l1, p c = true) (ha : p a = false) :
    (l1 ++ a :: l2).dropWhile p = a :: l2 := by
  induction l1 with
  | nil => simp [List.dropWhile_cons, ha]
  | cons x xs ih =>
    have hx : p x = true := h x (by simp)
    simp only [List.cons_append, List.dropWhile_cons, hx, if_true]
    exact ih (fun c hc => h c (by simp [hc]))

/-! ## C9 — object-store key shape -/

/-- C9: for every Feedback record whose `created_at` is a date part (free of
`'T'`) followed by `'T'` and the rest of the timestamp, the object-store key
is exactly `feedback/dt=<date>/source=<source>/<id>.json`. -/
theorem getFeedbackR2Key_shape (fb : Feedback) (d rest : String)
    (hc : fb.created_at = d ++ "T" ++ rest) (hd : ∀ c ∈ d.data, c ≠ 'T') :
    getFeedbackR2Key fb =
      "feedback/dt=" ++ d ++ "/source=" ++ fb.source ++ "/" ++ fb.id ++ ".json" := by
  have hdata : fb.created_at.data = d.data ++ 'T' :: rest.data := by
    rw [hc]
    simp [String.data_append]
  unfold getFeedbackR2Key
  rw [hdata, takeWhile_append_stop d.data 'T' rest.data
    (fun c hc' => by simpa using hd c hc') (by simp)]

/-- Concrete instantiation of `getFeedbackR2Key_shape`. -/
def fbC9 : Feedback :=
  ⟨"abc123", "2026-01-05T12:00:00Z", "discord", none, "d1", none, none, none,
   "body", "neutral", "low", [], none⟩

theorem getFeedbackR2Key_shape_witness :
    getFeedbackR2Key fbC9 =
      "feedback/dt=" ++ "2026-01-05" ++ "/source=" ++ fbC9.source ++ "/" ++ fbC9.id ++ ".json" :=
  getFeedbackR2Key_shape fbC9 "2026-01-05" "12:00:00Z" rfl (by decide)

/-! ## C10 — empty query treated like a missing query -/

/-- C10: a `query` that is present but empty is rejected exactly like a
missing one: the HTTP handler's validation returns the 400 outcome for both
`""` and `undefined`, and the slash-command handler answers an
empty-string-valued `query` option with the synchronous ephemeral validation
message and registers no background continuation. -/
theorem empty_query_treated_as_missing :
    handleAskValidation (some "") = .badRequest 400 "Missing required field: query" ∧
    handleAskValidation none = .badRequest 400 "Missing required field: query" ∧
    ∀ interaction : DiscordInteraction, getStringOption interaction "query" = some "" →
      handleAskCommand interaction =
        (createEphemeralResponse "Please provide a query using the `query` option.", 0) := by
  refine ⟨rfl, rfl, fun interaction h => ?_⟩
  simp [handleAskCommand, h, jsTruthyStr]

/-- Concrete interaction whose `query` option holds the empty string. -/
def interC10 : DiscordInteraction :=
  ⟨"1", 2, "app", some ⟨"10", "ask", some 1, some [⟨"query", 3, some (JsonVal.str "")⟩]⟩,
   none, none, "tok", 1⟩

theorem empty_query_treated_as_missing_witness :
    handleAskCommand interC10 =
      (createEphemeralResponse "Please provide a query using the `query` option.", 0) :=
  empty_query_treated_as_missing.2.2 interC10 rfl

/-! ## C6 — ask command: synchronous validation vs deferred path -/

/-- C6: an `ask` command invocation with no `query` option gets the
synchronous ephemeral validation message and registers no background
continuation (no deferred acknowledgment); one with a present, nonempty query
gets the deferred acknowledgment and registers exactly one background
continuation. -/
theorem ask_command_deferred_protocol (interaction : DiscordInteraction) :
    (getStringOption interaction "query" = none →
      handleAskCommand interaction =
        (createEphemeralResponse "Please provide a query using the `query` option.", 0)) ∧
    (∀ q, getStringOption interaction "query" = some q → q ≠ "" →
      handleAskCommand interaction = (createDeferredResponse, 1)) := by
  constructor
  · intro h
    simp [handleAskCommand, h, jsTruthyStr]
  · intro q h hq
    simp [handleAskCommand, h, jsTruthyStr, hq]

/-- Concrete interaction with no options. -/
def interC6missing : DiscordInteraction :=
  ⟨"1", 2, "app", some ⟨"10", "ask", some 1, some []⟩, none, none, "tok", 1⟩

/-- Concrete interaction with a nonempty `query` option. -/
def interC6present : DiscordInteraction :=
  ⟨"1", 2, "app", some ⟨"10", "ask", some 1,
    some [⟨"query", 3, some (JsonVal.str "what about d1")⟩]⟩, none, none, "tok", 1⟩

theorem ask_command_deferred_protocol_witness :
    handleAskCommand interC6missing =
      (createEphemeralResponse "Please provide a query using the `query` option.", 0) ∧
    handleAskCommand interC6present = (createDeferredResponse, 1) :=
  ⟨(ask_command_deferred_protocol interC6missing).1 rfl,
   (ask_command_deferred_protocol interC6present).2 "what about d1" rfl (by decide)⟩

/-! ## C2 — unparseable generation output fails ingestion -/

/-- C2: when the fence-stripped generation text is not parseable, the
canonicalization engine raises an error rather than substituting validator
defaults; and whenever parsing succeeds the result is exactly the validator's
output on the parsed value, so the fallback-to-defaults path is reached only
through successfully parsed values. -/
theorem normalize_hard_parse_failure (parseJson : String → Option JsonVal)
    (freshId nowIso responseText : String) :
    (parseJson (stripCodeFences responseText) = none →
      ∃ e, normalizeFeedback parseJson freshId nowIso responseText = .error e) ∧
    (∀ v, parseJson (stripCodeFences responseText) = some v →
      normalizeFeedback parseJson freshId nowIso responseText =
        validateFeedback freshId nowIso v) := by
  constructor
  · intro h
    refine ⟨"SyntaxError: Unexpected token in JSON", ?_⟩
    simp [normalizeFeedback, h]
  · intro v h
    simp [normalizeFeedback, h]

theorem normalize_hard_parse_failure_witness :
    ∃ e, normalizeFeedback (fun _ => none) "id-1" "2026-01-01T00:00:00Z"
      "this is not structured data" = .error e :=
  (normalize_hard_parse_failure (fun _ => none) "id-1" "2026-01-01T00:00:00Z"
    "this is not structured data").1 rfl

/-! ## C5 — zero-count digest short-circuit -/

/-- C5 (amended): with a zero total count the digest rendering is the digest
header followed by the literal `No feedback recorded for this date.` line
(run through the final platform truncation), so none of the breakdown table,
key-themes section or high-urgency list is composed. -/
theorem digest_zero_shortcircuit (date : String) (stats : List DailyStat)
    (highUrgency : List HighUrgencyItem) (answer : String) :
    composeDigest date stats 0 highUrgency answer =
      discordTruncate (digestHeader date ++ "No feedback recorded for this date.") := by
  simp [composeDigest, composeDigestBody]

/-- C5 counterexample: with a zero count the rendering is not the single
no-feedback line — it also contains the header line (the rendering spans
multiple lines). -/
theorem digest_zero_single_line_counterexample :
    composeDigest "2026-01-02" [] 0 [] "themes" ≠ "No feedback recorded for this date." ∧
    '\n' ∈ (composeDigest "2026-01-02" [] 0 [] "themes").data := by
  exact ⟨by decide, by decide⟩

/-! ## C8 — platform ceiling and ellipsis marker -/

theorem discordTruncate_bound (content : String) :
    (discordTruncate content).data.length ≤ 1900 ∧
    (content.data.length > 1900 → jsEndsWith (discordTruncate content) "..." = true) := by
  unfold discordTruncate
  split
  next h =>
    constructor
    · show ((jsTakeChars content 1897 ++ "...") : String).data.length ≤ 1900
      simp [jsTakeChars, String.data_append]
    · intro _
      show jsEndsWith (jsTakeChars content 1897 ++ "...") "..." = true
      simp [jsEndsWith, jsTakeChars, String.data_append, List.isSuffixOf,
        List.reverse_append, List.isPrefixOf]
  next h =>
    exact ⟨by omega, fun hgt => absurd hgt h⟩

/-- C8: the rendering produced for ask (`summarizeForDiscord`) and for the
digest never exceeds the 2000-character platform ceiling, and whenever the
pre-truncation content exceeded the truncation threshold the rendering ends
with the `...` ellipsis marker. -/
theorem render_ceiling_and_ellipsis (sr : SearchResult) (date : String)
    (stats : List DailyStat) (totalCount : Nat) (highUrgency : List HighUrgencyItem)
    (answer : String) :
    (summarizeForDiscord sr).data.length ≤ 2000 ∧
    (composeDigest date stats totalCount highUrgency answer).data.length ≤ 2000 ∧
    ((buildAskContent sr).data.length > 1900 →
      jsEndsWith (summarizeForDiscord sr) "..." = true) ∧
    ((composeDigestBody date stats totalCount highUrgency answer).data.length > 1900 →
      jsEndsWith (composeDigest date stats totalCount highUrgency answer) "..." = true) := by
  refine ⟨?_, ?_, ?_, ?_⟩
  · exact le_trans (discordTruncate_bound (buildAskContent sr)).1 (by omega)
  · exact le_trans
      (discordTruncate_bound (composeDigestBody date stats totalCount highUrgency answer)).1
      (by omega)
  · exact (discordTruncate_bound (buildAskContent sr)).2
  · exact (discordTruncate_bound (composeDigestBody date stats totalCount highUrgency answer)).2

/-- A 2000-character text, longer than the truncation threshold. -/
def longText : String := String.mk (List.replicate 2000 'a')

/-- Concrete long search result. -/
def srC8 : SearchResult := ⟨longText, [], none⟩

theorem composeDigestBody_header_le (date : String) (stats : List DailyStat)
    (totalCount : Nat) (highUrgency : List HighUrgencyItem) (answer : String) :
    (digestHeader date).data.length ≤
      (composeDigestBody date stats totalCount highUrgency answer).data.length := by
  unfold composeDigestBody
  split <;> simp [String.data_append]

theorem render_ceiling_and_ellipsis_witness :
    jsEndsWith (summarizeForDiscord srC8) "..." = true ∧
    jsEndsWith (composeDigest longText [] 1 [] "x") "..." = true := by
  have h := render_ceiling_and_ellipsis srC8 longText [] 1 [] "x"
  have hlt : longText.data.length = 2000 := by
    show (List.replicate 2000 'a').length = 2000
    exact List.length_replicate 2000 'a'
  refine ⟨h.2.2.1 ?_, h.2.2.2 ?_⟩
  · have hb : buildAskContent srC8 = longText := rfl
    rw [hb]
    omega
  · have hheader : 2000 ≤ (digestHeader longText).data.length := by
      unfold digestHeader
      simp only [String.data_append, List.length_append]
      omega
    have := composeDigestBody_header_le longText [] 1 [] "x"
    omega

/-! ## C1 — total coercion into the closed sets -/

/-- Evaluation of the validator on any non-null candidate: one record is
produced, with each field given by the corresponding coercion of the source
(`validateFeedback` is a single straight-line construction once the null
property-access throw is excluded). -/
theorem validateFeedback_eq_ok (freshId nowIso : String) (data : JsonVal)
    (hnn : data ≠ JsonVal.null) :
    validateFeedback freshId nowIso data = .ok
      { id := jsToString (jsOr (getField data "id") (.str freshId))
        created_at := jsToString (jsOr (getField data "created_at") (.str nowIso))
        source := enumOr (getField data "source") validSources "email"
        source_url := match getField data "source_url" with
          | some (.str s) => some s
          | _ => none
        product_area := enumOr (getField data "product_area") validProductAreas "other"
        title := match getField data "title" with
          | some (.str s) => some s
          | _ => none
        author := match getField data "author" with
          | some (.str s) => some s
          | _ => none
        thread_id := match getField data "thread_id" with
          | some (.str s) => some s
          | _ => none
        body_text := jsToString (jsOr (getField data "body_text")
          (jsOr (getField data "content")
            (jsOr (getField data "body")
              (jsOr (getField data "text") (.str "")))))
        sentiment := enumOr (getField data "sentiment") validSentiments "neutral"
        urgency := enumOr (getField data "urgency") validUrgencies "medium"
        tags := match getField data "tags" with
          | some (.arr elems) =>
            elems.filterMap (fun v => match v with | .str s => some s | _ => none)
          | _ => []
        confidence := match getField data "confidence" with
          | some (.obj fields) =>
            some ⟨confField (.obj fields) "product_area",
                  confField (.obj fields) "sentiment",
                  confField (.obj fields) "urgency"⟩
          | some (.arr elems) =>
            some ⟨confField (.arr elems) "product_area",
                  confField (.arr elems) "sentiment",
                  confField (.arr elems) "urgency"⟩
          | _ => none } := by
  cases data with
  | null => exact absurd rfl hnn
  | bool b => rfl
  | num n => rfl
  | str s => rfl
  | arr elems => rfl
  | obj fields => rfl

theorem enumOr_mem (v : Option JsonVal) (valid : List String) (dflt : String)
    (h : dflt ∈ valid) : enumOr v valid dflt ∈ valid := by
  unfold enumOr
  match v with
  | none => exact h
  | some (.null) => exact h
  | some (.bool _) => exact h
  | some (.num _) => exact h
  | some (.str s) =>
    by_cases hs : s ∈ valid
    · simp [hs]
    · simp [hs]
      exact h
  | some (.arr _) => exact h
  | some (.obj _) => exact h

theorem enumOr_default (v : Option JsonVal) (valid : List String) (dflt : String)
    (h : ¬ ∃ s, v = some (JsonVal.str s) ∧ s ∈ valid) : enumOr v valid dflt = dflt := by
  unfold enumOr
  match v with
  | none => rfl
  | some (.null) => rfl
  | some (.bool _) => rfl
  | some (.num _) => rfl
  | some (.str s) =>
    have hs : s ∉ valid := fun hmem => h ⟨s, rfl, hmem⟩
    simp [hs]
  | some (.arr _) => rfl
  | some (.obj _) => rfl

/-- C1 (amended): for every non-null candidate value the validator produces a
record whose `source`, `product_area`, `sentiment` and `urgency` are members
of their closed sets, and whenever the corresponding candidate field is
missing or not a member of its closed set the output holds the defined
default (`email` for source, `other` for product area, `neutral` for
sentiment, `medium` for urgency).  (On the `null` candidate the validator
throws — see the counterexample.) -/
theorem validateFeedback_closed_sets (freshId nowIso : String) (data : JsonVal)
    (hnn : data ≠ JsonVal.null) :
    ∃ fb, validateFeedback freshId nowIso data = .ok fb ∧
      fb.source ∈ validSources ∧
      fb.product_area ∈ validProductAreas ∧
      fb.sentiment ∈ validSentiments ∧
      fb.urgency ∈ validUrgencies ∧
      ((¬ ∃ s, getField data "source" = some (JsonVal.str s) ∧ s ∈ validSources) →
        fb.source = "email") ∧
      ((¬ ∃ s, getField data "product_area" = some (JsonVal.str s) ∧ s ∈ validProductAreas) →
        fb.product_area = "other") ∧
      ((¬ ∃ s, getField data "sentiment" = some (JsonVal.str s) ∧ s ∈ validSentiments) →
        fb.sentiment = "neutral") ∧
      ((¬ ∃ s, getField data "urgency" = some (JsonVal.str s) ∧ s ∈ validUrgencies) →
        fb.urgency = "medium") := by
  refine ⟨_, validateFeedback_eq_ok freshId nowIso data hnn, ?_, ?_, ?_, ?_, ?_, ?_, ?_, ?_⟩
  · exact enumOr_mem (getField data "source") validSources "email" (by decide)
  · exact enumOr_mem (getField data "product_area") validProductAreas "other" (by decide)
  · exact enumOr_mem (getField data "sentiment") validSentiments "neutral" (by decide)
  · exact enumOr_mem (getField data "urgency") validUrgencies "medium" (by decide)
  · exact fun h => enumOr_default (getField data "source") validSources "email" h
  · exact fun h => enumOr_default (getField data "product_area") validProductAreas "other" h
  · exact fun h => enumOr_default (getField data "sentiment") validSentiments "neutral" h
  · exact fun h => enumOr_default (getField data "urgency") validUrgencies "medium" h

/-- C1 counterexample: the validator is not total — on the `null` candidate
value (a legal result of parsing the generation output `"null"`) the property
accesses throw, so no record is returned. -/
theorem validateFeedback_null_counterexample :
    validateFeedback "fresh-id" "2026-01-01T00:00:00Z" JsonVal.null =
      .error "TypeError: Cannot read properties of null" := rfl

theorem validateFeedback_closed_sets_witness :
    ∃ fb, validateFeedback "fresh-id" "2026-01-01T00:00:00Z"
        (JsonVal.obj [("source", JsonVal.str "zzz")]) = .ok fb ∧
      fb.source ∈ validSources ∧
      fb.product_area ∈ validProductAreas ∧
      fb.sentiment ∈ validSentiments ∧
      fb.urgency ∈ validUrgencies ∧
      ((¬ ∃ s, getField (JsonVal.obj [("source", JsonVal.str "zzz")]) "source" =
          some (JsonVal.str s) ∧ s ∈ validSources) → fb.source = "email") ∧
      ((¬ ∃ s, getField (JsonVal.obj [("source", JsonVal.str "zzz")]) "product_area" =
          some (JsonVal.str s) ∧ s ∈ validProductAreas) → fb.product_area = "other") ∧
      ((¬ ∃ s, getField (JsonVal.obj [("source", JsonVal.str "zzz")]) "sentiment" =
          some (JsonVal.str s) ∧ s ∈ validSentiments) → fb.sentiment = "neutral") ∧
      ((¬ ∃ s, getField (JsonVal.obj [("source", JsonVal.str "zzz")]) "urgency" =
          some (JsonVal.str s) ∧ s ∈ validUrgencies) → fb.urgency = "medium") :=
  validateFeedback_closed_sets "fresh-id" "2026-01-01T00:00:00Z"
    (JsonVal.obj [("source", JsonVal.str "zzz")]) (fun h => JsonVal.noConfusion h)

/-! ## C4 — body_text assembly -/

/-- Modelled from the spec's words, for comparison with the source: the first
non-empty member of an ordered list of optional candidate strings, or the
empty string when none qualifies. -/
def firstNonEmptyString : List (Option String) → String
  | [] => ""
  | none :: rest => firstNonEmptyString rest
  | some s :: rest => if s ≠ "" then s else firstNonEmptyString rest

theorem jsOr_chain_firstNonEmpty (b c bo t : Option String) :
    jsToString (jsOr (b.map JsonVal.str)
      (jsOr (c.map JsonVal.str)
        (jsOr (bo.map JsonVal.str)
          (jsOr (t.map JsonVal.str) (.str ""))))) =
      firstNonEmptyString [b, c, bo, t] := by
  cases b <;> cases c <;> cases bo <;> cases t <;>
    simp only [Option.map_some', Option.map_none', jsOr, jsTruthy, jsToString,
      firstNonEmptyString] <;>
    split_ifs <;>
    simp_all [jsToString, firstNonEmptyString]

/-- C4 (amended): for every non-null candidate whose four body-candidate
fields are each absent or string-valued, the validator assembles `body_text`
as the first non-empty member of the ordered list `body_text`, `content`,
`body`, `text`; when all four are absent `body_text` is the empty string, and
in every case the record is still produced. -/
theorem body_text_assembly (freshId nowIso : String) (data : JsonVal)
    (hnn : data ≠ JsonVal.null) (b c bo t : Option String)
    (hb : getField data "body_text" = b.map JsonVal.str)
    (hc : getField data "content" = c.map JsonVal.str)
    (hbo : getField data "body" = bo.map JsonVal.str)
    (ht : getField data "text" = t.map JsonVal.str) :
    ∃ fb, validateFeedback freshId nowIso data = .ok fb ∧
      fb.body_text = firstNonEmptyString [b, c, bo, t] ∧
      (b = none → c = none → bo = none → t = none → fb.body_text = "") := by
  refine ⟨_, validateFeedback_eq_ok freshId nowIso data hnn, ?_, ?_⟩
  · show jsToString (jsOr (getField data "body_text")
      (jsOr (getField data "content")
        (jsOr (getField data "body")
          (jsOr (getField data "text") (.str ""))))) = firstNonEmptyString [b, c, bo, t]
    rw [hb, hc, hbo, ht]
    exact jsOr_chain_firstNonEmpty b c bo t
  · intro h1 h2 h3 h4
    subst h1; subst h2; subst h3; subst h4
    show jsToString (jsOr (getField data "body_text")
      (jsOr (getField data "content")
        (jsOr (getField data "body")
          (jsOr (getField data "text") (.str ""))))) = ""
    rw [hb, hc, hbo, ht]
    rfl

/-- C4 counterexample: the code's assembly is JavaScript truthiness plus
string conversion, not first-non-empty: with `body_text` holding an empty
array (truthy, but an empty value) and `content` holding the nonempty string
`"hi"`, the produced `body_text` is `""` (the stringified empty array), not
the first non-empty candidate `"hi"`. -/
theorem body_text_assembly_counterexample :
    ∃ fb, validateFeedback "fresh-id" "2026-01-01T00:00:00Z"
        (JsonVal.obj [("body_text", JsonVal.arr []), ("content", JsonVal.str "hi")]) = .ok fb ∧
      fb.body_text = "" ∧ fb.body_text ≠ "hi" := by
  refine ⟨_, rfl, rfl, by decide⟩

theorem body_text_assembly_witness :
    ∃ fb, validateFeedback "fresh-id" "2026-01-01T00:00:00Z"
        (JsonVal.obj [("content", JsonVal.str "hello")]) = .ok fb ∧
      fb.body_text = firstNonEmptyString [none, some "hello", none, none] ∧
      ((none : Option String) = none → some "hello" = none →
        (none : Option String) = none → (none : Option String) = none →
        fb.body_text = "") :=
  body_text_assembly "fresh-id" "2026-01-01T00:00:00Z"
    (JsonVal.obj [("content", JsonVal.str "hello")]) (fun h => JsonVal.noConfusion h)
    none (some "hello") none none rfl rfl rfl rfl

/-! ## C3 — fenced-code-block stripping -/

/-- The whole of `stripCodeFences`, expressed on the underlying character
list (used to reason about the string pipeline in one place). -/
def stripFenceChars (cs : List Char) : List Char :=
  let l0 := trimChars cs
  let l1 :=
    if ['`', '`', '`', 'j', 's', 'o', 'n'].isPrefixOf l0 then l0.drop 7
    else if ['`', '`', '`'].isPrefixOf l0 then l0.drop 3
    else l0
  let l2 := if ['`', '`', '`'].isSuffixOf l1 then l1.take (l1.length - 3) else l1
  trimChars l2

theorem string_data_mk (l : List Char) : (String.mk l).data = l := rfl

theorem stripCodeFences_data (s : String) :
    stripCodeFences s = String.mk (stripFenceChars s.data) := by
  unfold stripCodeFences stripFenceChars
  simp only [jsTrim, jsStartsWith, jsEndsWith, jsDropChars, jsTakeChars,
    string_data_mk, apply_ite String.data, apply_ite String.mk]

theorem trimChars_eq_self {l : List Char}
    (h1 : ∀ c, l.head? = some c → jsIsWhitespace c = false)
    (h2 : ∀ c, l.getLast? = some c → jsIsWhitespace c = false) :
    trimChars l = l := by
  unfold trimChars
  cases l with
  | nil => rfl
  | cons a m =>
    have ha : jsIsWhitespace a = false := h1 a rfl
    rw [List.dropWhile_cons_of_neg (by simp [ha])]
    cases hrev : (a :: m).reverse with
    | nil => simp at hrev
    | cons b r =>
      have hb : jsIsWhitespace b = false := by
        apply h2
        rw [← List.head?_reverse, hrev]
        rfl
      rw [List.dropWhile_cons_of_neg (by simp [hb]), ← hrev, List.reverse_reverse]

theorem trimChars_fix {L : List Char} (h : trimChars L = L) :
    L.dropWhile jsIsWhitespace = L ∧ L.reverse.dropWhile jsIsWhitespace = L.reverse := by
  have hA : L.dropWhile jsIsWhitespace <:+ L := List.dropWhile_suffix _
  have hB : (L.dropWhile jsIsWhitespace).reverse.dropWhile jsIsWhitespace <:+
      (L.dropWhile jsIsWhitespace).reverse := List.dropWhile_suffix _
  have hlenB : ((L.dropWhile jsIsWhitespace).reverse.dropWhile jsIsWhitespace).length =
      L.length := by
    have hcongr := congrArg List.length h
    simpa [trimChars] using hcongr
  have hlenA : (L.dropWhile jsIsWhitespace).length = L.length := by
    have h1 := hA.length_le
    have h2 := hB.length_le
    simp only [List.length_reverse] at h2
    omega
  have hAeq : L.dropWhile jsIsWhitespace = L := hA.eq_of_length hlenA
  refine ⟨hAeq, ?_⟩
  rw [hAeq] at hB hlenB
  exact hB.eq_of_length (by simpa using hlenB)

theorem trimChars_newline_wrap {L : List Char}
    (hf : L.dropWhile jsIsWhitespace = L)
    (hb : L.reverse.dropWhile jsIsWhitespace = L.reverse) :
    trimChars ('\n' :: (L ++ ['\n'])) = L := by
  unfold trimChars
  cases L with
  | nil => rfl
  | cons a l =>
    have ha : jsIsWhitespace a = false := by
      by_contra hcon
      rw [Bool.not_eq_false] at hcon
      rw [List.dropWhile_cons_of_pos hcon] at hf
      have := (List.dropWhile_suffix (l := l) jsIsWhitespace).length_le
      have hlen := congrArg List.length hf
      simp at hlen
      omega
    rw [List.dropWhile_cons_of_pos (by decide), List.cons_append,
      List.dropWhile_cons_of_neg (by simp [ha])]
    have hrev : (a :: (l ++ ['\n'])).reverse = '\n' :: (a :: l).reverse := by
      simp
    rw [hrev, List.dropWhile_cons_of_pos (by decide), hb, List.reverse_reverse]

/-- Common tail of the fence-stripping pipeline after the leading marker has
been dropped: remove the trailing fence and trim. -/
theorem stripFence_tail {L : List Char}
    (hf : L.dropWhile jsIsWhitespace = L)
    (hb : L.reverse.dropWhile jsIsWhitespace = L.reverse) :
    (let l1 := '\n' :: (L ++ ['\n', '`', '`', '`'])
     let l2 := if ['`', '`', '`'].isSuffixOf l1 then l1.take (l1.length - 3) else l1
     trimChars l2) = L := by
  have hshape : '\n' :: (L ++ ['\n', '`', '`', '`']) =
      ('\n' :: (L ++ ['\n'])) ++ ['`', '`', '`'] := by
    simp
  have hsuf : ['`', '`', '`'].isSuffixOf ('\n' :: (L ++ ['\n', '`', '`', '`'])) = true := by
    rw [hshape]
    exact List.isSuffixOf_iff_suffix.mpr ⟨'\n' :: (L ++ ['\n']), rfl⟩
  simp only [hsuf, if_true]
  have hlen : ('\n' :: (L ++ ['\n', '`', '`', '`'])).length - 3 = L.length + 2 := by
    simp
  rw [hlen, hshape, List.take_left' (by simp)]
  exact trimChars_newline_wrap hf hb

theorem stripFenceChars_json {L : List Char}
    (hf : L.dropWhile jsIsWhitespace = L)
    (hb : L.reverse.dropWhile jsIsWhitespace = L.reverse) :
    stripFenceChars (['`', '`', '`', 'j', 's', 'o', 'n', '\n'] ++
      (L ++ ['\n', '`', '`', '`'])) = L := by
  have htrim : trimChars (['`', '`', '`', 'j', 's', 'o', 'n', '\n'] ++
      (L ++ ['\n', '`', '`', '`'])) =
      ['`', '`', '`', 'j', 's', 'o', 'n', '\n'] ++ (L ++ ['\n', '`', '`', '`']) := by
    apply trimChars_eq_self
    · intro c hc
      cases hc
      decide
    · intro c hc
      have hshape : ['`', '`', '`', 'j', 's', 'o', 'n', '\n'] ++ (L ++ ['\n', '`', '`', '`']) =
          (['`', '`', '`', 'j', 's', 'o', 'n', '\n'] ++ (L ++ ['\n', '`', '`'])) ++ ['`'] := by
        simp
      rw [hshape, List.getLast?_concat] at hc
      cases hc
      decide
  have hpre : List.isPrefixOf ['`', '`', '`', 'j', 's', 'o', 'n']
      (['`', '`', '`', 'j', 's', 'o', 'n', '\n'] ++ (L ++ ['\n', '`', '`', '`'])) = true := by
    simp [List.isPrefixOf]
  unfold stripFenceChars
  simp only [htrim, hpre, if_true]
  have hdrop : (['`', '`', '`', 'j', 's', 'o', 'n', '\n'] ++
      (L ++ ['\n', '`', '`', '`'])).drop 7 = '\n' :: (L ++ ['\n', '`', '`', '`']) := by
    simp
  rw [hdrop]
  exact stripFence_tail hf hb

theorem stripFenceChars_untagged {L : List Char}
    (hf : L.dropWhile jsIsWhitespace = L)
    (hb : L.reverse.dropWhile jsIsWhitespace = L.reverse) :
    stripFenceChars (['`', '`', '`', '\n'] ++ (L ++ ['\n', '`', '`', '`'])) = L := by
  have htrim : trimChars (['`', '`', '`', '\n'] ++ (L ++ ['\n', '`', '`', '`'])) =
      ['`', '`', '`', '\n'] ++ (L ++ ['\n', '`', '`', '`']) := by
    apply trimChars_eq_self
    · intro c hc
      cases hc
      decide
    · intro c hc
      have hshape : ['`', '`', '`', '\n'] ++ (L ++ ['\n', '`', '`', '`']) =
          (['`', '`', '`', '\n'] ++ (L ++ ['\n', '`', '`'])) ++ ['`'] := by
        simp
      rw [hshape, List.getLast?_concat] at hc
      cases hc
      decide
  have hpre1 : List.isPrefixOf ['`', '`', '`', 'j', 's', 'o', 'n']
      (['`', '`', '`', '\n'] ++ (L ++ ['\n', '`', '`', '`'])) = false := by
    simp [List.isPrefixOf]
  have hpre2 : List.isPrefixOf ['`', '`', '`']
      (['`', '`', '`', '\n'] ++ (L ++ ['\n', '`', '`', '`'])) = true := by
    simp [List.isPrefixOf]
  unfold stripFenceChars
  simp only [htrim, hpre1, hpre2, if_true, Bool.false_eq_true, if_false]
  have hdrop : (['`', '`', '`', '\n'] ++ (L ++ ['\n', '`', '`', '`'])).drop 3 =
      '\n' :: (L ++ ['\n', '`', '`', '`']) := by
    simp
  rw [hdrop]
  exact stripFence_tail hf hb

/-- C3 (amended): the canonicalization engine recovers the inner text of a
fenced code block when the fence has no language tag or exactly the `json`
tag; for other language tags the inner text is not recovered in general (see
the counterexample, where a `js`-tagged block keeps its tag). -/
theorem stripCodeFences_fenced (inner : String) (h : jsTrim inner = inner) :
    stripCodeFences ("```json\n" ++ inner ++ "\n```") = inner ∧
    stripCodeFences ("```\n" ++ inner ++ "\n```") = inner := by
  have h' : trimChars inner.data = inner.data := congrArg String.data h
  obtain ⟨hf, hb⟩ := trimChars_fix h'
  have d1 : ("```json\n").data = ['`', '`', '`', 'j', 's', 'o', 'n', '\n'] := rfl
  have d2 : ("\n```").data = ['\n', '`', '`', '`'] := rfl
  have d3 : ("```\n").data = ['`', '`', '`', '\n'] := rfl
  constructor
  · have e : ("```json\n" ++ inner ++ "\n```").data =
        ['`', '`', '`', 'j', 's', 'o', 'n', '\n'] ++ (inner.data ++ ['\n', '`', '`', '`']) := by
      rw [String.data_append, String.data_append, d1, d2, List.append_assoc]
    rw [stripCodeFences_data, e, stripFenceChars_json hf hb]
  · have e : ("```\n" ++ inner ++ "\n```").data =
        ['`', '`', '`', '\n'] ++ (inner.data ++ ['\n', '`', '`', '`']) := by
      rw [String.data_append, String.data_append, d3, d2, List.append_assoc]
    rw [stripCodeFences_data, e, stripFenceChars_untagged hf hb]

/-- C3 counterexample: for the language tag `js` the inner text is not
recovered — the tag survives the stripping.  The fenced block
```` ```js\nhello\n``` ```` strips to `js\nhello`, not to the inner text
`hello`. -/
theorem stripCodeFences_language_tag_counterexample :
    stripCodeFences "```js\nhello\n```" = "js\nhello" ∧
    stripCodeFences "```js\nhello\n```" ≠ "hello" := by
  exact ⟨by decide, by decide⟩

theorem stripCodeFences_fenced_witness :
    stripCodeFences ("```json\n" ++ "hello" ++ "\n```") = "hello" ∧
    stripCodeFences ("```\n" ++ "hello" ++ "\n```") = "hello" :=
  stripCodeFences_fenced "hello" (by decide)

/-! ## C7 — row round trip (tags and confidence) -/

theorem parseHexDigit_hexDigitChar : ∀ d < 16, parseHexDigit (hexDigitChar d) = some d := by
  decide

theorem parse_escape (c : Char) (cs : List Char) :
    parseJsonStringBody (escapeJsonChar c ++ cs) = consParsed c (parseJsonStringBody cs) := by
  unfold escapeJsonChar
  split_ifs with h1 h2 h3 h4 h5 h6 h7 h8
  · subst h1
    exact parseJsonStringBody_backslash _ _ _ (by simp [parseEscapeSeq])
  · subst h2
    exact parseJsonStringBody_backslash _ _ _ (by simp [parseEscapeSeq])
  · subst h3
    exact parseJsonStringBody_backslash _ _ _ (by simp [parseEscapeSeq])
  · subst h4
    exact parseJsonStringBody_backslash _ _ _ (by simp [parseEscapeSeq])
  · subst h5
    exact parseJsonStringBody_backslash _ _ _ (by simp [parseEscapeSeq])
  · subst h6
    exact parseJsonStringBody_backslash _ _ _ (by simp [parseEscapeSeq])
  · subst h7
    exact parseJsonStringBody_backslash _ _ _ (by simp [parseEscapeSeq])
  · have hd1 : parseHexDigit (hexDigitChar (c.toNat / 16)) = some (c.toNat / 16) :=
      parseHexDigit_hexDigitChar _ (by omega)
    have hd2 : parseHexDigit (hexDigitChar (c.toNat % 16)) = some (c.toNat % 16) :=
      parseHexDigit_hexDigitChar _ (by omega)
    have hpd0 : parseHexDigit '0' = some 0 := by decide
    have hval : ((0 * 16 + 0) * 16 + c.toNat / 16) * 16 + c.toNat % 16 = c.toNat := by
      omega
    have hhex : parseHex4 ('0' :: '0' :: hexDigitChar (c.toNat / 16) ::
        hexDigitChar (c.toNat % 16) :: cs) = some (c, cs) := by
      have harith : c.toNat / 16 * 16 + c.toNat % 16 = c.toNat := by omega
      simp [parseHex4, hpd0, hd1, hd2]
      rw [harith, Char.ofNat_toNat]
    have hesc : parseEscapeSeq ('u' :: '0' :: '0' :: hexDigitChar (c.toNat / 16) ::
        hexDigitChar (c.toNat % 16) :: cs) = some (c, cs) := by
      simp only [parseEscapeSeq, Char.reduceEq, reduceIte]
      exact hhex
    exact parseJsonStringBody_backslash _ _ _ hesc
  · exact parseJsonStringBody_other c cs h1 h2

theorem parse_encoded_body (s : List Char) (cs : List Char) :
    parseJsonStringBody ((s.map escapeJsonChar).flatten ++ '"' :: cs) = some (s, cs) := by
  induction s with
  | nil => exact parseJsonStringBody_quote cs
  | cons c s' ih =>
    simp only [List.map_cons, List.flatten_cons, List.append_assoc]
    rw [parse_escape, ih]
    rfl

theorem encodeStringArrayBody_length (ts : List String) :
    ts.length ≤ (encodeStringArrayBody ts).length + 1 := by
  induction ts with
  | nil => simp [encodeStringArrayBody]
  | cons t ts ih =>
    cases ts with
    | nil => simp [encodeStringArrayBody]
    | cons t2 ts2 =>
      simp only [encodeStringArrayBody, List.length_append, List.length_cons] at ih ⊢
      omega

theorem parseStringArrayElems_encode (ts : List String) :
    ∀ fuel, ts ≠ [] → ts.length ≤ fuel →
      parseStringArrayElems fuel (encodeStringArrayBody ts ++ [']']) = some ts := by
  induction ts with
  | nil =>
    intro fuel h _
    exact absurd rfl h
  | cons t ts ih =>
    intro fuel _ hlen
    cases fuel with
    | zero => simp at hlen
    | succ f =>
      cases ts with
      | nil =>
        show parseStringArrayElems (f + 1) (encodeJsonStringChars t ++ [']']) = some [t]
        have e : encodeJsonStringChars t ++ [']'] =
            '"' :: ((t.data.map escapeJsonChar).flatten ++ '"' :: [']']) := by
          simp [encodeJsonStringChars]
        rw [e]
        simp only [parseStringArrayElems]
        rw [parse_encoded_body]
        rfl
      | cons t2 ts2 =>
        show parseStringArrayElems (f + 1)
          ((encodeJsonStringChars t ++ ',' :: encodeStringArrayBody (t2 :: ts2)) ++ [']']) =
          some (t :: t2 :: ts2)
        have e : (encodeJsonStringChars t ++ ',' :: encodeStringArrayBody (t2 :: ts2)) ++ [']'] =
            '"' :: ((t.data.map escapeJsonChar).flatten ++
              '"' :: (',' :: (encodeStringArrayBody (t2 :: ts2) ++ [']']))) := by
          simp [encodeJsonStringChars]
        rw [e]
        simp only [parseStringArrayElems]
        rw [parse_encoded_body]
        show (match parseStringArrayElems f (encodeStringArrayBody (t2 :: ts2) ++ [']']) with
          | some ts => some (String.mk t.data :: ts)
          | none => none) = some (t :: t2 :: ts2)
        rw [ih f (by simp) (by simpa using hlen)]

theorem parseStringArray_encode (ts : List String) :
    parseStringArray (encodeStringArray ts) = some ts := by
  cases ts with
  | nil => rfl
  | cons t ts =>
    have hbody : ∃ B, encodeStringArrayBody (t :: ts) = '"' :: B := by
      cases ts with
      | nil => exact ⟨(t.data.map escapeJsonChar).flatten ++ ['"'], rfl⟩
      | cons t2 ts2 =>
        exact ⟨((t.data.map escapeJsonChar).flatten ++ ['"']) ++
          ',' :: encodeStringArrayBody (t2 :: ts2), rfl⟩
    obtain ⟨B, hB⟩ := hbody
    show parseStringArray ⟨'[' :: encodeStringArrayBody (t :: ts) ++ [']']⟩ = some (t :: ts)
    unfold parseStringArray
    simp only [string_data_mk]
    rw [hB, List.cons_append]
    show parseStringArrayElems (('"' :: (B ++ [']'])).length + 1) ('"' :: (B ++ [']'])) =
      some (t :: ts)
    rw [← List.cons_append, ← hB]
    apply parseStringArrayElems_encode (t :: ts) _ (by simp)
    have hBlen := congrArg List.length hB
    simp only [List.length_cons] at hBlen
    have h1 := encodeStringArrayBody_length (t :: ts)
    rw [hBlen] at h1
    simp only [List.length_cons] at h1
    simp only [List.length_append, List.length_cons]
    omega

theorem encodeStringArray_ne_empty (ts : List String) : encodeStringArray ts ≠ "" := by
  intro h
  have hd := congrArg String.data h
  simp only [encodeStringArray, string_data_mk] at hd
  exact List.noConfusion hd

theorem jsNum_all_numLit (n : JsNum) : ∀ c ∈ n.val.data, isNumLitChar c = true := by
  have h := n.property
  simp only [validNumRepr, Bool.and_eq_true, List.all_eq_true] at h
  exact fun c hc => h.1.2 c hc

theorem encodeConfBody_length (ps : List (String × JsNum)) :
    ps.length ≤ (encodeConfBody ps).length + 1 := by
  induction ps with
  | nil => simp [encodeConfBody]
  | cons p ps ih =>
    cases ps with
    | nil => simp [encodeConfBody]
    | cons q qs =>
      simp only [encodeConfBody, List.length_append, List.length_cons] at ih ⊢
      omega

theorem parseConfPairs_encode (ps : List (String × JsNum)) :
    ∀ fuel, ps ≠ [] → ps.length ≤ fuel →
      (∀ p ∈ ps, ∀ ch ∈ (p : String × JsNum).1.data, ¬ ch = '"') →
      parseConfPairs fuel (encodeConfBody ps ++ ['}']) = some ps := by
  induction ps with
  | nil =>
    intro fuel h _ _
    exact absurd rfl h
  | cons p ps ih =>
    intro fuel _ hlen hkeys
    cases fuel with
    | zero => simp at hlen
    | succ f =>
      obtain ⟨key, n⟩ := p
      have hkey : ∀ c ∈ key.data, (fun c => decide ¬(c = '"')) c = true := by
        intro c hc
        simpa using hkeys (key, n) (by simp) c hc
      have hnum := jsNum_all_numLit n
      cases ps with
      | nil =>
        show parseConfPairs (f + 1) (encodeConfPair (key, n) ++ ['}']) = some [(key, n)]
        have e : encodeConfPair (key, n) ++ ['}'] =
            '"' :: (key.data ++ '"' :: ':' :: (n.val.data ++ ['}'])) := by
          simp [encodeConfPair]
        rw [e]
        simp only [parseConfPairs]
        rw [takeWhile_append_stop key.data '"' _ hkey (by simp),
          dropWhile_append_stop key.data '"' _ hkey (by simp)]
        show (let numChars := (n.val.data ++ ['}']).takeWhile isNumLitChar
          if h : validNumRepr (String.mk numChars) = true then
            (match (n.val.data ++ ['}']).dropWhile isNumLitChar with
             | ',' :: rest3 =>
               (match parseConfPairs f rest3 with
                | some ps => some ((String.mk key.data, ⟨String.mk numChars, h⟩) :: ps)
                | none => none)
             | '}' :: [] => some [(String.mk key.data, ⟨String.mk numChars, h⟩)]
             | _ => none)
          else none) = some [(key, n)]
        rw [takeWhile_append_stop n.val.data '}' [] hnum (by decide),
          dropWhile_append_stop n.val.data '}' [] hnum (by decide)]
        simp only [string_mk_data, n.property, dite_true]
        rfl
      | cons q qs =>
        show parseConfPairs (f + 1)
          ((encodeConfPair (key, n) ++ ',' :: encodeConfBody (q :: qs)) ++ ['}']) =
          some ((key, n) :: q :: qs)
        have e : (encodeConfPair (key, n) ++ ',' :: encodeConfBody (q :: qs)) ++ ['}'] =
            '"' :: (key.data ++ '"' :: ':' ::
              (n.val.data ++ ',' :: (encodeConfBody (q :: qs) ++ ['}']))) := by
          simp [encodeConfPair]
        rw [e]
        simp only [parseConfPairs]
        rw [takeWhile_append_stop key.data '"' _ hkey (by simp),
          dropWhile_append_stop key.data '"' _ hkey (by simp)]
        show (let numChars := (n.val.data ++
            ',' :: (encodeConfBody (q :: qs) ++ ['}'])).takeWhile isNumLitChar
          if h : validNumRepr (String.mk numChars) = true then
            (match (n.val.data ++
                ',' :: (encodeConfBody (q :: qs) ++ ['}'])).dropWhile isNumLitChar with
             | ',' :: rest3 =>
               (match parseConfPairs f rest3 with
                | some ps => some ((String.mk key.data, ⟨String.mk numChars, h⟩) :: ps)
                | none => none)
             | '}' :: [] => some [(String.mk key.data, ⟨String.mk numChars, h⟩)]
             | _ => none)
          else none) = some ((key, n) :: q :: qs)
        rw [takeWhile_append_stop n.val.data ',' _ hnum (by decide),
          dropWhile_append_stop n.val.data ',' _ hnum (by decide)]
        simp only [string_mk_data, n.property, dite_true]
        rw [ih f (by simp) (by simpa using hlen)
          (fun pp hpp => hkeys pp (by simp [hpp]))]
        rfl

theorem confFieldList_keys (c : FeedbackConfidence) :
    ∀ p ∈ confFieldList c, ∀ ch ∈ (p : String × JsNum).1.data, ¬ ch = '"' := by
  intro p hp ch hch
  have haux : ∀ (k : String) (o : Option JsNum) (q : String × JsNum),
      q ∈ (match o with
           | some n => [(k, n)]
           | none => ([] : List (String × JsNum))) → q.1 = k := by
    intro k o q hq
    cases o with
    | none => simp at hq
    | some n =>
      simp at hq
      rw [hq]
  have hkey : p.1 = "product_area" ∨ p.1 = "sentiment" ∨ p.1 = "urgency" := by
    simp only [confFieldList, List.mem_append] at hp
    rcases hp with (hp | hp) | hp
    · exact Or.inl (haux _ _ _ hp)
    · exact Or.inr (Or.inl (haux _ _ _ hp))
    · exact Or.inr (Or.inr (haux _ _ _ hp))
  rcases hkey with hk | hk | hk <;> rw [hk] at hch
  · exact (by decide : ∀ c ∈ ("product_area").data, ¬ c = '"') ch hch
  · exact (by decide : ∀ c ∈ ("sentiment").data, ¬ c = '"') ch hch
  · exact (by decide : ∀ c ∈ ("urgency").data, ¬ c = '"') ch hch

theorem parseConfObject_encodeConfidence (c : FeedbackConfidence) :
    parseConfObject (encodeConfidence c) = some (confFieldList c) := by
  cases hps : confFieldList c with
  | nil =>
    show parseConfObject ⟨'{' :: (encodeConfBody (confFieldList c) ++ ['}'])⟩ = some []
    rw [hps]
    rfl
  | cons p ps =>
    have hbody : ∃ B, encodeConfBody (p :: ps) = '"' :: B := by
      cases ps with
      | nil => exact ⟨p.1.data ++ '"' :: ':' :: p.2.val.data, rfl⟩
      | cons q qs =>
        exact ⟨(p.1.data ++ '"' :: ':' :: p.2.val.data) ++ ',' :: encodeConfBody (q :: qs), rfl⟩
    obtain ⟨B, hB⟩ := hbody
    show parseConfObject ⟨'{' :: (encodeConfBody (confFieldList c) ++ ['}'])⟩ = some (p :: ps)
    rw [hps]
    unfold parseConfObject
    simp only [string_data_mk]
    rw [hB, List.cons_append]
    show parseConfPairs (('"' :: (B ++ ['}'])).length + 1) ('"' :: (B ++ ['}'])) = some (p :: ps)
    rw [← List.cons_append, ← hB]
    apply parseConfPairs_encode (p :: ps) _ (by simp) ?_ ?_
    · have hBlen := congrArg List.length hB
      simp only [List.length_cons] at hBlen
      have h1 := encodeConfBody_length (p :: ps)
      rw [hBlen] at h1
      simp only [List.length_cons] at h1
      simp only [List.length_append, List.length_cons]
      omega
    · rw [← hps]
      exact confFieldList_keys c

theorem confOfPairs_confFieldList (c : FeedbackConfidence) :
    confOfPairs (confFieldList c) = c := by
  rcases c with ⟨pa, se, ur⟩
  cases pa <;> cases se <;> cases ur <;> rfl

theorem encodeConfidence_ne_empty (c : FeedbackConfidence) : encodeConfidence c ≠ "" := by
  intro h
  have hd := congrArg String.data h
  simp only [encodeConfidence, string_mk_data] at hd
  exact List.noConfusion hd

/-- C7: for every Feedback with nonempty tags (and any r2 key), converting to
a row and back reconstructs the original `tags` list and the original
`confidence` content — the round trip through the JSON-encoded `tags_json`
and `confidence_json` columns is lossless. -/
theorem row_roundtrip_tags_confidence (f : Feedback) (r2Key : String) (h : f.tags ≠ []) :
    ∃ fb, rowToFeedback (feedbackToRow f r2Key) = some fb ∧
      fb.1.tags = f.tags ∧ fb.1.confidence = f.confidence := by
  have htags : f.tags.length > 0 := List.length_pos.mpr h
  have key : rowToFeedback (feedbackToRow f r2Key) = some (f, r2Key) := by
    unfold rowToFeedback feedbackToRow
    cases hconf : f.confidence with
    | none =>
      simp only [if_pos htags]
      simp [encodeStringArray_ne_empty f.tags, parseStringArray_encode, ← hconf]
    | some c =>
      simp only [if_pos htags]
      simp [encodeStringArray_ne_empty f.tags, parseStringArray_encode,
        encodeConfidence_ne_empty c, parseConfObject_encodeConfidence,
        confOfPairs_confFieldList, ← hconf]
  exact ⟨(f, r2Key), key, rfl, rfl⟩

/-- Concrete Feedback with tags and confidence for the round-trip witness. -/
def fbC7 : Feedback :=
  ⟨"id-7", "2026-01-05T12:00:00Z", "discord", none, "d1", some "slow queries", none, none,
   "D1 queries are slow", "negative", "high", ["bug", "performance"],
   some ⟨some ⟨"0.9", by decide⟩, none, some ⟨"0.75", by decide⟩⟩⟩

theorem row_roundtrip_tags_confidence_witness :
    ∃ fb, rowToFeedback (feedbackToRow fbC7 "feedback/dt=2026-01-05/source=discord/id-7.json") =
        some fb ∧
      fb.1.tags = fbC7.tags ∧ fb.1.confidence = fbC7.confidence :=
  row_roundtrip_tags_confidence fbC7 "feedback/dt=2026-01-05/source=discord/id-7.json"
    (by decide)
